import Mathlib

/-!
Verification development for the MOLIT press-release notifier
(`molit_bot_now.py` / `molit_bot.py`).

The pipeline is embedded shallowly:
* Timestamps are minutes on the KST-local timeline (`Int`); both scripts pin
  every datetime to the fixed-offset zone `Asia/Seoul`, so arithmetic on
  aware datetimes coincides with arithmetic on local minutes.
* Calendar dates are epoch-day numbers (`Int`), converted from `Y-M-D`
  with the standard civil-calendar algorithms.
* HTTP is an oracle (`World`): the listing fetch yields a parsed document
  (a list of anchors) or a transport error, the detail fetch yields a
  detail document or a transport error, and the Telegram send yields a
  unit or an error.  Raised Python exceptions are `Except PyErr`.
* A Python `set` is represented by one of its enumerations (a duplicate-free
  list): CPython specifies only membership, not iteration order, so facts
  about `list(s)` must hold for every permutation.
-/

namespace MolitBot

set_option maxRecDepth 8000

/-- Python exception kinds that the scripts can raise or catch. -/
inductive PyErr where
  | transport  -- requests exceptions / raise_for_status
  | valueErr   -- ValueError (e.g. datetime.strptime on an invalid date)
  | config     -- RuntimeError for missing BOT_TOKEN / CHAT_ID
  | ioErr      -- OSError / json.JSONDecodeError while reading the cache
  deriving DecidableEq, Repr

/-! ## Calendar arithmetic (civil calendar <-> epoch days, KST minutes) -/

/-- Leap-year rule used by `datetime` validity checks. -/
def isLeap (y : Int) : Bool :=
  (y % 4 == 0 && y % 100 != 0) || (y % 400 == 0)

/-- Days in a month, as `datetime.strptime` validation uses. -/
def daysInMonth (y m : Int) : Int :=
  if m == 2 then (if isLeap y then 29 else 28)
  else if m == 4 || m == 6 || m == 9 || m == 11 then 30
  else 31

/-- Civil date to days since 1970-01-01 (proleptic Gregorian). -/
def daysFromCivil (y m d : Int) : Int :=
  let y' := if m ≤ 2 then y - 1 else y
  let era := Int.fdiv y' 400
  let yoe := y' - era * 400
  let mp := (m + 9) % 12
  let doy := Int.fdiv (153 * mp + 2) 5 + d - 1
  let doe := yoe * 365 + Int.fdiv yoe 4 - Int.fdiv yoe 100 + doy
  era * 146097 + doe - 719468

/-- Days since 1970-01-01 back to a civil date `(y, m, d)`. -/
def civilFromDays (z : Int) : Int × Int × Int :=
  let z' := z + 719468
  let era := Int.fdiv z' 146097
  let doe := z' - era * 146097
  let yoe := Int.fdiv (doe - Int.fdiv doe 1460 + Int.fdiv doe 36524 - Int.fdiv doe 146096) 365
  let y := yoe + era * 400
  let doy := doe - (365 * yoe + Int.fdiv yoe 4 - Int.fdiv yoe 100)
  let mp := Int.fdiv (5 * doy + 2) 153
  let d := doy - Int.fdiv (153 * mp + 2) 5 + 1
  let m := mp + (if mp < 10 then 3 else -9)
  (if m ≤ 2 then y + 1 else y, m, d)

/-- Minutes per day. -/
def minutesPerDay : Int := 1440

/-- `datetime.date()` at KST: calendar day of a KST-minute timestamp. -/
def dateOf (t : Int) : Int := Int.fdiv t minutesPerDay

/-! ## Character-level parsing (models of `re` patterns and `strptime`) -/

/-- The whitespace class matched by `\s` (ASCII part, which is what the
scraped pages contain). -/
def isPyWs (c : Char) : Bool :=
  c = ' ' || c = '\t' || c = '\n' || c = '\r' || c = '\x0b' || c = '\x0c'

/-- Read exactly `n` ASCII digits, returning their value and the rest. -/
def readDigits : Nat → List Char → Nat → Option (Nat × List Char)
  | 0, cs, acc => some (acc, cs)
  | _ + 1, [], _ => none
  | n + 1, c :: cs, acc =>
      if c.isDigit then readDigits n cs (acc * 10 + (c.toNat - 48)) else none

/-- Consume one expected character. -/
def expectChar (c : Char) : List Char → Option (List Char)
  | [] => none
  | x :: xs => if x = c then some xs else none

/-- Read one or two ASCII digits greedily (the `%m` / `%d` directives). -/
def readDigitsUpTo2 : List Char → Option (Nat × List Char)
  | [] => none
  | c :: cs =>
      if c.isDigit then
        match cs with
        | c2 :: cs2 =>
            if c2.isDigit then some ((c.toNat - 48) * 10 + (c2.toNat - 48), cs2)
            else some (c.toNat - 48, cs)
        | [] => some (c.toNat - 48, [])
      else none

/-- `datetime.strptime(s, "%Y-%m-%d").date()` as used on listing rows:
four-digit year, one/two-digit month and day, the whole string consumed,
and the value must be a valid `datetime` date (year ≥ 1).  Returns the
epoch-day number, or `none` where Python raises (the caller catches). -/
def parseDateYMD (s : String) : Option Int :=
  match readDigits 4 s.data 0 with
  | none => none
  | some (y, r1) =>
    match expectChar '-' r1 with
    | none => none
    | some r2 =>
      match readDigitsUpTo2 r2 with
      | none => none
      | some (mo, r3) =>
        match expectChar '-' r3 with
        | none => none
        | some r4 =>
          match readDigitsUpTo2 r4 with
          | none => none
          | some (d, r5) =>
            if r5 = [] ∧ 1 ≤ y ∧ 1 ≤ mo ∧ mo ≤ 12 ∧ 1 ≤ d ∧
                (d : Int) ≤ daysInMonth (y : Int) (mo : Int) then
              some (daysFromCivil (y : Int) (mo : Int) (d : Int))
            else none

/-- Attempt to match `등록일\s*([0-9]{4}-[0-9]{2}-[0-9]{2}\s+[0-9]{2}:[0-9]{2})`
at the head of `cs`; returns the captured numbers `(y, m, d, hh, mm)`.
`\s*`/`\s+` are forced to consume the maximal whitespace run because a
digit is required right after, so no backtracking arises. -/
def matchDetailAt (cs : List Char) : Option (Nat × Nat × Nat × Nat × Nat) :=
  if ("등록일".data).isPrefixOf cs then
    let r1 := (cs.drop 3).dropWhile isPyWs
    match readDigits 4 r1 0 with
    | none => none
    | some (y, r2) =>
      match expectChar '-' r2 with
      | none => none
      | some r3 =>
        match readDigits 2 r3 0 with
        | none => none
        | some (mo, r4) =>
          match expectChar '-' r4 with
          | none => none
          | some r5 =>
            match readDigits 2 r5 0 with
            | none => none
            | some (d, r6) =>
              match r6 with
              | [] => none
              | c :: _ =>
                if isPyWs c then
                  let r7 := r6.dropWhile isPyWs
                  match readDigits 2 r7 0 with
                  | none => none
                  | some (h, r8) =>
                    match expectChar ':' r8 with
                    | none => none
                    | some r9 =>
                      match readDigits 2 r9 0 with
                      | none => none
                      | some (mi, _) => some (y, mo, d, h, mi)
                else none
  else none

/-- `re.search`: leftmost match of the detail-date pattern. -/
def searchDetail : List Char → Option (Nat × Nat × Nat × Nat × Nat)
  | [] => none
  | c :: cs =>
    match matchDetailAt (c :: cs) with
    | some r => some r
    | none => searchDetail cs

/-- `parse_detail_datetime_kst`: search the raw detail page for the
`등록일 YYYY-MM-DD HH:MM` stamp.  No match is `None`; a match that is not a
valid datetime makes `strptime` raise `ValueError`, which the caller does
NOT catch.  A valid match becomes KST minutes. -/
def parse_detail_datetime_kst (html : String) : Except PyErr (Option Int) :=
  match searchDetail html.data with
  | none => .ok none
  | some (y, mo, d, h, mi) =>
    if 1 ≤ y ∧ 1 ≤ mo ∧ mo ≤ 12 ∧ 1 ≤ d ∧
        (d : Int) ≤ daysInMonth (y : Int) (mo : Int) ∧ h ≤ 23 ∧ mi ≤ 59 then
      .ok (some (daysFromCivil (y : Int) (mo : Int) (d : Int) * minutesPerDay
                  + (h : Int) * 60 + (mi : Int)))
    else .error .valueErr

/-! ## Formatting (`%Y-%m-%d %H:%M`) -/

/-- Zero-pad to two digits. -/
def pad2 (n : Nat) : String := if n < 10 then "0" ++ toString n else toString n

/-- Zero-pad to four digits. -/
def pad4 (n : Nat) : String :=
  if n < 10 then "000" ++ toString n
  else if n < 100 then "00" ++ toString n
  else if n < 1000 then "0" ++ toString n
  else toString n

/-- `f"{dt:%Y-%m-%d %H:%M}"` on a KST-minute timestamp. -/
def fmtYMDHM (t : Int) : String :=
  let day := Int.fdiv t minutesPerDay
  let rem := (t % minutesPerDay).toNat
  let c := civilFromDays day
  pad4 c.1.toNat ++ "-" ++ pad2 c.2.1.toNat ++ "-" ++ pad2 c.2.2.toNat ++ " "
    ++ pad2 (rem / 60) ++ ":" ++ pad2 (rem % 60)

/-! ## Data model -/

/-- One listing-page anchor as seen by `parse_list_rows`: its text, its
`href`, and the cell texts of the enclosing `<tr>` (`none` when the anchor
has no `<tr>` ancestor). -/
structure Anchor where
  title : String
  href : String
  tr : Option (List String)
  deriving DecidableEq, Repr

/-- One parsed listing row. -/
structure Row where
  title : String
  link : String
  category : String
  date_str : String
  deriving DecidableEq, Repr

/-- A collected item (`ResolvedItem`). -/
structure Item where
  dt : Int
  title : String
  link : String
  category : String
  summary : String
  deriving DecidableEq, Repr

/-- A detail page: `raw` is `response.text` (searched by the regex);
`containers` maps a CSS selector to the stripped text of the matched
container when `select_one` finds one; `fullText` is `soup.get_text`. -/
structure DetailDoc where
  raw : String
  containers : List (String × String)
  fullText : String
  deriving DecidableEq, Repr

/-- The HTTP world: listing fetch per `(section_code, page)`, detail fetch
per link, and the Telegram send.  `Except.error` is a raised transport
exception (`requests` error / non-success `raise_for_status`). -/
structure World where
  fetchList : String → Nat → Except PyErr (List Anchor)
  fetchDetail : String → Except PyErr DetailDoc
  sendMsg : String → Except PyErr Unit

/-! ## Constants from the script -/

def BASE : String := "https://www.molit.go.kr"

def MAX_CACHE : Nat := 300

/-- `SUMMARY_CHARS` default (env override not modelled). -/
def SUMMARY_CHARS : Nat := 220

def CATEGORY_TO_SECTION : List (String × String) :=
  [("주택토지", "p_sec_2"), ("국토도시", "p_sec_9"), ("일반", "p_sec_1")]

/-! ## Listing parser -/

/-- Substring containment on char lists (the `href*='...'` CSS test). -/
def containsSeq (pat : List Char) : List Char → Bool
  | [] => pat.isEmpty
  | c :: cs => pat.isPrefixOf (c :: cs) || containsSeq pat cs

/-- The detail-link selector substring in `molit_bot_now.py`. -/
def SELECTOR_SUBSTR : String := "USR/NEWS/m_71/dtl.jsp"

/-- `urljoin(BASE, href)` for the reference shapes that occur here:
an absolute URL is kept, a site-absolute or relative path is resolved
against `BASE` (whose path is empty). -/
def urljoinB (href : String) : String :=
  if containsSeq "://".data href.data then href
  else if ("/".data).isPrefixOf href.data then BASE ++ href
  else BASE ++ "/" ++ href

/-- Build the row dict for an anchor whose `<tr>` has cells `tds`:
with ≥ 4 cells the category is `tds[-3]` and the date is `tds[-2]`,
otherwise both are empty. -/
def mkRow (a : Anchor) (tds : List String) : Row :=
  { title := a.title
    link := urljoinB a.href
    category := if 4 ≤ tds.length then tds.getD (tds.length - 3) "" else ""
    date_str := if 4 ≤ tds.length then tds.getD (tds.length - 2) "" else "" }

/-- `parse_list_rows`: every anchor matching the selector; anchors with no
parent `<tr>` are skipped (`continue`). -/
def parse_list_rows (doc : List Anchor) : List Row :=
  (doc.filter (fun a => containsSeq SELECTOR_SUBSTR.data a.href.data)).filterMap
    (fun a =>
      match a.tr with
      | none => none
      | some tds => some (mkRow a tds))

/-! ## Summary extraction -/

/-- The ordered container-selector candidates of `extract_summary`. -/
def summaryCandidates : List String :=
  ["#viewCon", ".board_view", ".view", ".bo_view", ".bo_content", ".bo_text",
   ".bbsView", ".contents", "#contents", "#content"]

/-- First candidate whose container exists and has non-empty text. -/
def firstContainer : List String → List (String × String) → Option String
  | [], _ => none
  | sel :: rest, cont =>
    match cont.lookup sel with
    | some t => if t = "" then firstContainer rest cont else some t
    | none => firstContainer rest cont

/-- `re.sub(r"\s+", " ", text)`: each maximal whitespace run becomes one
space.  The flag tells whether the previous kept character closed a run. -/
def collapseWsAux : Bool → List Char → List Char
  | _, [] => []
  | prevWs, c :: cs =>
    if isPyWs c then
      if prevWs then collapseWsAux true cs else ' ' :: collapseWsAux true cs
    else c :: collapseWsAux false cs

def collapseWs (cs : List Char) : List Char := collapseWsAux false cs

/-- `str.rstrip()` over the modelled whitespace class. -/
def rstripWs (cs : List Char) : List Char := (cs.reverse.dropWhile isPyWs).reverse

/-- `extract_summary(html, limit)` on the modelled detail document. -/
def extract_summary (doc : DetailDoc) (limit : Nat) : String :=
  let text :=
    match firstContainer summaryCandidates doc.containers with
    | some t => t
    | none => doc.fullText
  let text := String.mk (collapseWs text.data)
  if limit < text.length then String.mk (rstripWs (text.data.take limit)) ++ "…"
  else text

/-! ## Dedup cache -/

/-- Outcome of opening and parsing the cache file, the input to `load_cache`. -/
inductive CacheRead where
  | missing          -- open() raises FileNotFoundError
  | unreadable       -- open()/read raises OSError
  | malformedJson    -- json.load raises JSONDecodeError
  | nonObject        -- valid JSON but not an object: data.get raises
  | objWithoutLinks  -- an object with no "links" field
  | objWithLinks (links : List String)
  deriving DecidableEq, Repr

/-- The body of `load_cache`'s `try:` block: any raised exception escapes
as `.error`; an object without `links` defaults to `[]`. -/
def load_cache_attempt : CacheRead → Except PyErr (List String)
  | .missing => .error .ioErr
  | .unreadable => .error .ioErr
  | .malformedJson => .error .ioErr
  | .nonObject => .error .ioErr
  | .objWithoutLinks => .ok []
  | .objWithLinks links => .ok links.eraseDups

/-- `load_cache`: the `except Exception` handler turns every failure into
the empty set.  The returned list is the set's enumeration (first
occurrences; only membership is specified for a Python set). -/
def load_cache (c : CacheRead) : List String :=
  match load_cache_attempt c with
  | .error _ => []
  | .ok s => s

/-- `save_cache`: `links = list(links_set)`, truncated to the LAST
`MAX_CACHE` entries of that enumeration when over capacity.  The argument
is the enumeration that `list()` produced. -/
def save_cache (links : List String) : List String :=
  if MAX_CACHE < links.length then links.drop (links.length - MAX_CACHE)
  else links

/-! ## Recency filter / pager (`fetch_recent_for_section`) -/

/-- The per-row coarse-date test
`row_date and row_date < (now_kst - timedelta(days=1)).date()`:
true only when the date string parses and is strictly before the calendar
day of `now - 24h` (a `None` date never raises the stop signal). -/
def rowIsOld (now : Int) (row : Row) : Bool :=
  match parseDateYMD row.date_str with
  | some rd => decide (rd < dateOf (now - minutesPerDay))
  | none => false

/-- Process one row after the coarse-date gate: fetch the detail page
(any exception skips the row), resolve the registration time (a
`ValueError` propagates!), and keep the item iff
`since ≤ dt ≤ now` (both bounds inclusive). -/
def processRowDetail (w : World) (since now : Int) (name : String)
    (st : List Item × Bool) (row : Row) : Except PyErr (List Item × Bool) :=
  match w.fetchDetail row.link with
  | .error _ => .ok st
  | .ok doc =>
    match parse_detail_datetime_kst doc.raw with
    | .error e => .error e
    | .ok none => .ok st
    | .ok (some dt) =>
      if since ≤ dt ∧ dt ≤ now then
        .ok (st.1 ++ [{ dt := dt, title := row.title, link := row.link,
                        category := name,
                        summary := extract_summary doc SUMMARY_CHARS }], st.2)
      else .ok st

/-- Process one row of a listing page: an old coarse date raises the stop
signal and `continue`s; otherwise the detail page decides. -/
def processRow (w : World) (since now : Int) (name : String)
    (st : List Item × Bool) (row : Row) : Except PyErr (List Item × Bool) :=
  if rowIsOld now row then .ok (st.1, true)
  else processRowDetail w since now name st row

/-- The inner `for row in rows:` loop. -/
def rowsFold (w : World) (since now : Int) (name : String) :
    List Item × Bool → List Row → Except PyErr (List Item × Bool)
  | st, [] => .ok st
  | st, r :: rs =>
    match processRow w since now name st r with
    | .error e => .error e
    | .ok st' => rowsFold w since now name st' rs

/-- The `for page in range(1, max_pages + 1):` loop.  A listing-fetch
exception is NOT caught and so propagates; an empty page breaks; a raised
stop signal breaks after the page is drained.  (`time.sleep` is a no-op
here.) -/
def fetchPagesAux (w : World) (code name : String) (since now : Int) :
    List Nat → List Item → Except PyErr (List Item)
  | [], items => .ok items
  | p :: ps, items =>
    match w.fetchList code p with
    | .error e => .error e
    | .ok doc =>
      let rows := parse_list_rows doc
      if rows.isEmpty then .ok items
      else
        match rowsFold w since now name (items, false) rows with
        | .error e => .error e
        | .ok (items', stop) =>
          if stop then .ok items'
          else fetchPagesAux w code name since now ps items'

/-- `fetch_recent_for_section(section_code, section_name, since, now,
max_pages=3)`. -/
def fetch_recent_for_section (w : World) (code name : String)
    (since now : Int) (max_pages : Nat := 3) : Except PyErr (List Item) :=
  fetchPagesAux w code name since now (List.range' 1 max_pages) []

/-! ## Digest building and chunked sending (`main`) -/

/-- `send(text)`: missing credentials raise `RuntimeError` BEFORE the
Telegram post; a present token/chat id that is the empty string is falsy
in Python and counts as missing. -/
def credOk : Option String → Bool
  | none => false
  | some s => !(s == "")

def send (bt ci : Option String) (w : World) (text : String) :
    Except PyErr Unit :=
  if credOk bt && credOk ci then w.sendMsg text else .error .config

/-- `[it for it in all_items if it["link"] not in sent]`. -/
def newItems (sent : List String) (items : List Item) : List Item :=
  items.filter (fun it => !(sent.contains it.link))

/-- `new_items.sort(key=lambda x: x["dt"], reverse=True)`: a stable sort,
descending by timestamp.  Any stable sort realizes the same function; we
use insertion sort. -/
def sortItems (items : List Item) : List Item :=
  items.insertionSort (fun a b => b.dt ≤ a.dt)

/-- The digest header line of `molit_bot_now.py`. -/
def digestHeader (now : Int) : String :=
  "국토교통부 보도자료 (지난 24시간, 주택토지·국토도시·일반)\n기준: "
    ++ fmtYMDHM now ++ " KST"

/-- The "no new items" message. -/
def emptyDigestMsg (now : Int) : String :=
  digestHeader now ++ "\n\n신규 보도자료가 없습니다. (중복 제외)"

/-- A category header line `[분야]`. -/
def catHeader (c : String) : String := "[" ++ c ++ "]"

/-- A rendered item block. -/
def renderItem (it : Item) : String :=
  "• " ++ it.title ++ "\n  - 등록: " ++ fmtYMDHM it.dt
    ++ "\n  - 요약: " ++ it.summary ++ "\n  - 링크: " ++ it.link

/-- The grouping loop: a category header is emitted whenever the category
differs from `last_cat` (initially `None`). -/
def digestBody : Option String → List Item → List String
  | _, [] => []
  | last, it :: rest =>
    if last = some it.category then
      renderItem it :: digestBody (some it.category) rest
    else
      catHeader it.category :: renderItem it :: digestBody (some it.category) rest

/-- `lines = [header, ""] + ...`. -/
def digestLines (now : Int) (items : List Item) : List String :=
  digestHeader now :: "" :: digestBody none items

/-- One step of the chunking loop: if adding the line would push the
running budget `buf` past 3500, flush the current chunk first; then append
the line and add `len(line) + 1` to the budget. -/
def chunkStep : List (List String) × List String × Nat → String →
    List (List String) × List String × Nat
  | (done, cur, buf), line =>
    if 3500 < buf + line.length + 1 then (done ++ [cur], [line], line.length + 1)
    else (done, cur ++ [line], buf + line.length + 1)

/-- The chunking loop over all digest lines, with the trailing
`if chunk: send(...)` flush. -/
def chunkLines (lines : List String) : List (List String) :=
  match lines.foldl chunkStep ([], [], 0) with
  | (done, cur, _) => if cur.isEmpty then done else done ++ [cur]

/-- `"\n".join(chunk)`. -/
def joinNL : List String → String
  | [] => ""
  | [l] => l
  | l :: ls => l ++ "\n" ++ joinNL ls

/-- Send every chunk in order, collecting the delivered texts; a raised
send error propagates. -/
def sendChunks (bt ci : Option String) (w : World) :
    List (List String) → Except PyErr (List String)
  | [] => .ok []
  | c :: cs =>
    match send bt ci w (joinNL c) with
    | .error e => .error e
    | .ok _ =>
      match sendChunks bt ci w cs with
      | .error e => .error e
      | .ok rest => .ok (joinNL c :: rest)

/-- The enumeration of the dedup set after `sent.add(it["link"])` for every
new item: one admissible (insertion-ordered) enumeration; Python fixes
only the membership. -/
def updateEnum (sentSet : List String) (newLinks : List String) : List String :=
  sentSet ++ (newLinks.filter (fun l => !(sentSet.contains l))).eraseDups

/-- `main()` of `molit_bot_now.py`: fetch the three categories in order
(listing errors propagate), dedup against the cache, send either the
"no new items" message (and return WITHOUT saving) or the sorted, grouped,
chunked digest, then persist the updated cache.  The result is the list of
delivered texts and the persisted link list (`none` when no save ran).
The source interleaves chunk construction with sending; computing
`chunkLines` first and then sending each chunk performs the identical
sequence of send calls with identical texts (and is literally how the
sibling `molit_bot.py` writes the same loop). -/
def run_main (bt ci : Option String) (w : World) (cache : CacheRead)
    (now : Int) : Except PyErr (List String × Option (List String)) :=
  let since := now - 1440
  match fetch_recent_for_section w "p_sec_2" "주택토지" since now 3 with
  | .error e => .error e
  | .ok i1 =>
    match fetch_recent_for_section w "p_sec_9" "국토도시" since now 3 with
    | .error e => .error e
    | .ok i2 =>
      match fetch_recent_for_section w "p_sec_1" "일반" since now 3 with
      | .error e => .error e
      | .ok i3 =>
        let all_items := i1 ++ i2 ++ i3
        let sentSet := load_cache cache
        let new_items := newItems sentSet all_items
        if new_items.isEmpty then
          match send bt ci w (emptyDigestMsg now) with
          | .error e => .error e
          | .ok _ => .ok ([emptyDigestMsg now], none)
        else
          let sorted := sortItems new_items
          let lines := digestLines now sorted
          match sendChunks bt ci w (chunkLines lines) with
          | .error e => .error e
          | .ok sentTexts =>
            .ok (sentTexts,
                 some (save_cache (updateEnum sentSet (new_items.map Item.link))))

/-! ## Helper lemmas: chunking -/

/-- The running budget tracked by the chunk loop: `len(line) + 1` per line. -/
def chunkWeight : List String → Nat
  | [] => 0
  | l :: ls => l.length + 1 + chunkWeight ls

/-- What a produced chunk may look like: within budget, or a lone overlong
line. -/
def GoodChunk (c : List String) : Prop :=
  (joinNL c).length ≤ 3500 ∨ ∃ l, c = [l] ∧ 3500 < l.length

theorem chunkWeight_append (a b : List String) :
    chunkWeight (a ++ b) = chunkWeight a + chunkWeight b := by
  induction a with
  | nil => simp [chunkWeight]
  | cons x xs ih =>
    show chunkWeight (x :: (xs ++ b)) = _
    simp only [chunkWeight, ih]
    omega

theorem joinNL_cons_length (l : String) (ls : List String) :
    (joinNL (l :: ls)).length + 1 = chunkWeight (l :: ls) := by
  induction ls generalizing l with
  | nil => simp [joinNL, chunkWeight]
  | cons x xs ih =>
    have h := ih x
    show (l ++ "\n" ++ joinNL (x :: xs)).length + 1 = _
    have hnl : ("\n" : String).length = 1 := rfl
    rw [String.length_append, String.length_append, hnl]
    simp only [chunkWeight] at h ⊢
    omega

theorem goodChunk_of (cur : List String)
    (h : chunkWeight cur ≤ 3500 ∨ ∃ l, cur = [l]) : GoodChunk cur := by
  rcases h with h | ⟨l, rfl⟩
  · cases cur with
    | nil => exact Or.inl (by simp [joinNL])
    | cons x xs =>
      have h2 := joinNL_cons_length x xs
      simp only [chunkWeight] at h h2
      exact Or.inl (by omega)
  · rcases le_or_lt l.length 3500 with h' | h'
    · exact Or.inl (by simpa [joinNL] using h')
    · exact Or.inr ⟨l, rfl, h'⟩

/-- Invariant carried through the chunking fold. -/
def ChunkInv (st : List (List String) × List String × Nat) : Prop :=
  st.2.2 = chunkWeight st.2.1 ∧ (∀ c ∈ st.1, GoodChunk c) ∧
    (st.2.2 ≤ 3500 ∨ ∃ l, st.2.1 = [l])

theorem chunkStep_inv (done : List (List String)) (cur : List String)
    (buf : Nat) (line : String) (h : ChunkInv (done, cur, buf)) :
    ChunkInv (chunkStep (done, cur, buf) line) := by
  obtain ⟨h1, h2, h3⟩ := h
  dsimp only at h1 h2 h3
  dsimp only [chunkStep]
  split
  · refine ⟨?_, ?_, Or.inr ⟨line, rfl⟩⟩
    · dsimp only; simp [chunkWeight]
    · intro c hc
      rcases List.mem_append.1 hc with hc | hc
      · exact h2 c hc
      · have hcc : c = cur := by simpa using hc
        rw [hcc]
        exact goodChunk_of cur (by rw [h1] at h3; simpa using h3)
  · rename_i hle
    refine ⟨?_, h2, Or.inl ?_⟩
    · dsimp only
      rw [chunkWeight_append]
      simp only [chunkWeight]
      omega
    · dsimp only
      omega

theorem chunkFold_inv (lines : List String) :
    ∀ st, ChunkInv st → ChunkInv (lines.foldl chunkStep st) := by
  induction lines with
  | nil => intro st h; simpa using h
  | cons l ls ih =>
    intro st h
    obtain ⟨done, cur, buf⟩ := st
    simpa [List.foldl_cons] using ih _ (chunkStep_inv done cur buf l h)

theorem chunkFold_join (lines : List String) :
    ∀ st : List (List String) × List String × Nat,
      (lines.foldl chunkStep st).1.flatten ++ (lines.foldl chunkStep st).2.1
        = st.1.flatten ++ st.2.1 ++ lines := by
  induction lines with
  | nil => intro st; simp
  | cons l ls ih =>
    intro st
    rw [List.foldl_cons, ih]
    obtain ⟨done, cur, buf⟩ := st
    dsimp only [chunkStep]
    split
    · simp
    · simp

theorem chunkLines_eq (lines : List String) :
    chunkLines lines =
      (if (lines.foldl chunkStep ([], [], 0)).2.1.isEmpty
       then (lines.foldl chunkStep ([], [], 0)).1
       else (lines.foldl chunkStep ([], [], 0)).1
            ++ [(lines.foldl chunkStep ([], [], 0)).2.1]) := rfl

theorem chunkLines_flatten (lines : List String) :
    (chunkLines lines).flatten = lines := by
  have hj := chunkFold_join lines ([], [], 0)
  simp only [List.flatten_nil, List.nil_append] at hj
  rw [chunkLines_eq]
  split
  · rename_i he
    rw [List.isEmpty_iff] at he
    rw [he] at hj
    simpa using hj
  · rw [List.flatten_append]
    simpa using hj

theorem chunkLines_good (lines : List String) :
    ∀ c ∈ chunkLines lines, GoodChunk c := by
  have hinv := chunkFold_inv lines ([], [], 0)
    ⟨by simp [chunkWeight], by simp, Or.inl (by simp)⟩
  obtain ⟨h1, h2, h3⟩ := hinv
  intro c hc
  rw [chunkLines_eq] at hc
  split at hc
  · exact h2 c hc
  · rcases List.mem_append.1 hc with hc | hc
    · exact h2 c hc
    · have hcc : c = (lines.foldl chunkStep ([], [], 0)).2.1 := by simpa using hc
      rw [hcc]
      exact goodChunk_of _ (by rw [h1] at h3; simpa using h3)

theorem chunkLines_ne_nil (lines : List String) (h : lines ≠ []) :
    chunkLines lines ≠ [] := by
  intro h0
  apply h
  have hj := chunkLines_flatten lines
  rw [h0] at hj
  simpa using hj.symm

/-- C7: in the digest chunking loop, every produced chunk's rendered text
(`"\n".join(chunk)`) has length at most the 3500-character budget, except
that a single line longer than the budget occupies a chunk of its own
(never split mid-line); and the chunks concatenate back to the original
lines in order — no line is dropped, duplicated or reordered. -/
theorem C7_chunking (lines : List String) :
    (chunkLines lines).flatten = lines ∧
    ∀ c ∈ chunkLines lines,
      (joinNL c).length ≤ 3500 ∨ ∃ l, c = [l] ∧ 3500 < l.length :=
  ⟨chunkLines_flatten lines, fun c hc => chunkLines_good lines c hc⟩

def linesW : List String := ["ab", "cd", "ef"]

theorem C7_chunking_witness :
    (chunkLines linesW).flatten = linesW ∧
    ((joinNL ["ab", "cd", "ef"]).length ≤ 3500 ∨
      ∃ l, ["ab", "cd", "ef"] = [l] ∧ 3500 < l.length) :=
  ⟨(C7_chunking linesW).1, (C7_chunking linesW).2 ["ab", "cd", "ef"] (by decide)⟩

/-! ## C8: load_cache is fail-open -/

/-- C8: `load_cache` never propagates a read/parse failure: every raised
exception inside the `try:` block yields the empty set, an object without
a `links` field yields the empty set, and a successful read yields exactly
the parsed link set.  (Totality of `load_cache` is the "never propagates"
part: its type has no error case.) -/
theorem C8_load_cache_fail_open (c : CacheRead) :
    (∀ e, load_cache_attempt c = .error e → load_cache c = []) ∧
    (∀ s, load_cache_attempt c = .ok s → load_cache c = s) ∧
    load_cache .objWithoutLinks = [] := by
  refine ⟨?_, ?_, rfl⟩ <;> intro x hx <;> simp [load_cache, hx]

theorem C8_load_cache_fail_open_witness :
    load_cache .missing = [] ∧ load_cache .malformedJson = [] :=
  ⟨(C8_load_cache_fail_open .missing).1 .ioErr rfl,
   (C8_load_cache_fail_open .malformedJson).1 .ioErr rfl⟩

/-! ## C3: save_cache capacity and eviction order -/

def cexF (i : Nat) : String := String.mk (List.replicate i 'a')

theorem cexF_inj : Function.Injective cexF := by
  intro a b h
  have h2 : List.replicate a 'a' = List.replicate b 'a' := congrArg String.data h
  simpa using congrArg List.length h2

/-- 301 distinct links in insertion order. -/
def cexIns : List String := (List.range 301).map cexF

/-- A legal enumeration of the same set (Python fixes only membership, not
iteration order of a `set`). -/
def cexEnum : List String := cexIns.rotate 1

/-- C3 counterexample: it is NOT the case that `save_cache` evicts the
earliest-inserted links for every enumeration that `list(links_set)` may
produce — the kept entries are a suffix of the enumeration order, which is
not insertion order.  Here the earliest-inserted link survives. -/
theorem C3_save_cache_counterexample :
    ¬ (∀ (ins e : List String), ins.Nodup → e.Perm ins →
        MAX_CACHE < ins.length →
        save_cache e = ins.drop (ins.length - MAX_CACHE)) := by
  intro h
  have hnd : cexIns.Nodup := (List.nodup_range 301).map cexF_inj
  have hp : cexEnum.Perm cexIns := cexIns.rotate_perm 1
  have hlen : MAX_CACHE < cexIns.length := by
    simp [cexIns, MAX_CACHE]
  exact absurd (h cexIns cexEnum hnd hp hlen) (by decide)

/-- C3 amended: after `save_cache`, the persisted list has length at most
`MAX_CACHE`, and it is a suffix of the set's enumeration order (the first
`len - MAX_CACHE` entries of THAT order are evicted); an input within
capacity is persisted unchanged.  FIFO-by-insertion eviction is not
guaranteed, since a Python `set` does not preserve insertion order. -/
theorem C3_save_cache_capacity (e : List String) :
    (save_cache e).length ≤ MAX_CACHE ∧
    (save_cache e).IsSuffix e ∧
    (e.length ≤ MAX_CACHE → save_cache e = e) := by
  unfold save_cache
  split
  · rename_i hgt
    refine ⟨?_, List.drop_suffix _ _, fun hle => absurd hle (by omega)⟩
    rw [List.length_drop]
    omega
  · rename_i hle
    exact ⟨by omega, List.suffix_refl e, fun _ => rfl⟩

theorem C3_save_cache_capacity_witness :
    (save_cache ["a", "b"]).length ≤ MAX_CACHE ∧
    (save_cache ["a", "b"]).IsSuffix ["a", "b"] ∧
    save_cache ["a", "b"] = ["a", "b"] :=
  ⟨(C3_save_cache_capacity ["a", "b"]).1,
   (C3_save_cache_capacity ["a", "b"]).2.1,
   (C3_save_cache_capacity ["a", "b"]).2.2 (by decide)⟩

/-! ## C9: parse_list_rows -/

/-- The anchors that actually produce a row: selector matches AND an
enclosing `<tr>` exists. -/
def goodAnchors (doc : List Anchor) : List (Anchor × List String) :=
  (doc.filter (fun a => containsSeq SELECTOR_SUBSTR.data a.href.data)).filterMap
    (fun a => a.tr.map (fun tds => (a, tds)))

/-- The row/anchor correspondence claimed by the (amended) spec: title and
resolved link come from the anchor; with at least 4 cells the category is
the third-from-last cell and the coarse date the second-from-last; with
fewer than 4 cells both are empty. -/
def RowFromAnchor (r : Row) (a : Anchor) (tds : List String) : Prop :=
  r.title = a.title ∧ r.link = urljoinB a.href ∧
  (∀ rest c dstr vc, tds = rest ++ [c, dstr, vc] → rest ≠ [] →
      r.category = c ∧ r.date_str = dstr) ∧
  (tds.length < 4 → r.category = "" ∧ r.date_str = "")

theorem getD_append_len (pre rest : List String) (k : Nat) :
    (pre ++ rest).getD (pre.length + k) "" = rest.getD k "" := by
  induction pre with
  | nil => simp
  | cons a t ih =>
    have harith : (a :: t).length + k = (t.length + k) + 1 := by
      simp
      omega
    rw [harith]
    simpa using ih

theorem mkRow_fromAnchor (a : Anchor) (tds : List String) :
    RowFromAnchor (mkRow a tds) a tds := by
  refine ⟨rfl, rfl, ?_, ?_⟩
  · intro rest c dstr vc htds hrest
    subst htds
    have hlen : (rest ++ [c, dstr, vc]).length = rest.length + 3 := by simp
    have hrl : 1 ≤ rest.length := by
      cases rest with
      | nil => exact absurd rfl hrest
      | cons x xs => simp
    constructor
    · show (if 4 ≤ (rest ++ [c, dstr, vc]).length
            then (rest ++ [c, dstr, vc]).getD ((rest ++ [c, dstr, vc]).length - 3) ""
            else "") = c
      rw [if_pos (by omega)]
      have hidx : (rest ++ [c, dstr, vc]).length - 3 = rest.length + 0 := by omega
      rw [hidx, getD_append_len]
      rfl
    · show (if 4 ≤ (rest ++ [c, dstr, vc]).length
            then (rest ++ [c, dstr, vc]).getD ((rest ++ [c, dstr, vc]).length - 2) ""
            else "") = dstr
      rw [if_pos (by omega)]
      have hidx : (rest ++ [c, dstr, vc]).length - 2 = rest.length + 1 := by omega
      rw [hidx, getD_append_len]
      rfl
  · intro hlt
    constructor
    · show (if 4 ≤ tds.length then tds.getD (tds.length - 3) "" else "") = ""
      rw [if_neg (by omega)]
    · show (if 4 ≤ tds.length then tds.getD (tds.length - 2) "" else "") = ""
      rw [if_neg (by omega)]

/-- C9 counterexample: `parse_list_rows` does NOT return one row per
matching detail-page anchor — an anchor with no enclosing `<tr>` is
dropped (the `continue` at `if not tr`), so a malformed row can vanish at
this stage. -/
theorem C9_parse_list_rows_counterexample :
    ¬ ((parse_list_rows [⟨"t", "/USR/NEWS/m_71/dtl.jsp?id=1", none⟩]).length
        = ([(⟨"t", "/USR/NEWS/m_71/dtl.jsp?id=1", none⟩ : Anchor)].filter
            (fun a => containsSeq SELECTOR_SUBSTR.data a.href.data)).length) := by
  decide

/-- C9 amended: `parse_list_rows` returns one row, in document order, per
detail-page anchor THAT HAS an enclosing table row (anchors without one
are skipped); each returned row takes its title and resolved link from the
anchor, its category from the third-from-last cell and its coarse date
from the second-from-last cell when the row has at least 4 cells, and
empty strings for both when it has fewer. -/
theorem C9_parse_list_rows :
    ∀ doc : List Anchor,
      List.Forall₂ (fun r p => RowFromAnchor r p.1 p.2)
        (parse_list_rows doc) (goodAnchors doc) := by
  intro doc
  induction doc with
  | nil => simp [parse_list_rows, goodAnchors]
  | cons a rest ih =>
    by_cases hsel : containsSeq SELECTOR_SUBSTR.data a.href.data
    · cases htr : a.tr with
      | none =>
        simpa [parse_list_rows, goodAnchors, hsel, htr] using ih
      | some tds =>
        have : parse_list_rows (a :: rest)
            = mkRow a tds :: parse_list_rows rest := by
          simp [parse_list_rows, hsel, htr]
        rw [this]
        have : goodAnchors (a :: rest) = (a, tds) :: goodAnchors rest := by
          simp [goodAnchors, hsel, htr]
        rw [this]
        exact List.Forall₂.cons (mkRow_fromAnchor a tds) ih
    · simpa [parse_list_rows, goodAnchors, hsel] using ih

def c9a : Anchor := ⟨"제목", "/USR/NEWS/m_71/dtl.jsp?id=95090229",
  some ["1", "제목", "주택토지", "2025-08-12", "5"]⟩

/-! ## Helper lemmas: the pager -/

/-- The stop flag is only or-accumulated by row processing: running a row
from flag `b` gives the same items as from flag `false`, with the output
flag or-ed with `b`. -/
theorem processRow_flag (w : World) (since now : Int) (name : String)
    (items : List Item) (b : Bool) (row : Row) :
    processRow w since now name (items, b) row
      = (processRow w since now name (items, false) row).map
          (fun p => (p.1, b || p.2)) := by
  unfold processRow processRowDetail
  split
  · simp [Except.map]
  · split
    · simp [Except.map]
    · split
      · simp [Except.map]
      · simp [Except.map]
      · split
        · simp [Except.map]
        · simp [Except.map]

/-- A row whose coarse date is old is skipped with only the flag set. -/
theorem processRow_old (w : World) (since now : Int) (name : String)
    (st : List Item × Bool) (row : Row) (hbad : rowIsOld now row = true) :
    processRow w since now name st row = .ok (st.1, true) := by
  unfold processRow
  simp [hbad]

/-- Flag-independence lifted to a whole page. -/
theorem rowsFold_flag (w : World) (since now : Int) (name : String)
    (rows : List Row) :
    ∀ (items : List Item) (b : Bool),
      rowsFold w since now name (items, b) rows
        = (rowsFold w since now name (items, false) rows).map
            (fun p => (p.1, b || p.2)) := by
  induction rows with
  | nil => intro items b; simp [rowsFold, Except.map]
  | cons r rs ih =>
    intro items b
    simp only [rowsFold]
    rw [processRow_flag w since now name items b r]
    cases hp : processRow w since now name (items, false) r with
    | error e => simp [Except.map]
    | ok st' =>
      obtain ⟨its', b'⟩ := st'
      simp only [Except.map]
      rw [ih its' (b || b'), ih its' b']
      cases hq : rowsFold w since now name (its', false) rs with
      | error e => simp [Except.map]
      | ok q => simp [Except.map, Bool.or_assoc]

/-- Splitting a page's row list. -/
theorem rowsFold_append (w : World) (since now : Int) (name : String)
    (l1 l2 : List Row) :
    ∀ st, rowsFold w since now name st (l1 ++ l2)
      = (match rowsFold w since now name st l1 with
         | .error e => .error e
         | .ok st1 => rowsFold w since now name st1 l2) := by
  induction l1 with
  | nil => intro st; simp [rowsFold]
  | cons r rs ih =>
    intro st
    simp only [List.cons_append, rowsFold]
    cases hp : processRow w since now name st r with
    | error e => rfl
    | ok st' => exact ih st'

/-- Any item present after a processed row was already there or lies in
the closed window `[since, now]`. -/
theorem processRow_mem (w : World) (since now : Int) (name : String)
    (st : List Item × Bool) (row : Row) (st' : List Item × Bool)
    (h : processRow w since now name st row = .ok st') :
    ∀ it ∈ st'.1, it ∈ st.1 ∨ (since ≤ it.dt ∧ it.dt ≤ now) := by
  intro it hit
  unfold processRow processRowDetail at h
  split at h
  · cases h
    exact Or.inl hit
  · split at h
    · cases h
      exact Or.inl hit
    · split at h
      · exact Except.noConfusion h
      · cases h
        exact Or.inl hit
      · split at h
        · rename_i hw
          cases h
          rcases List.mem_append.1 hit with hin | hin
          · exact Or.inl hin
          · rw [List.mem_singleton] at hin
            subst hin
            exact Or.inr hw
        · cases h
          exact Or.inl hit

/-- The same, over a whole page. -/
theorem rowsFold_mem (w : World) (since now : Int) (name : String)
    (rows : List Row) :
    ∀ st st', rowsFold w since now name st rows = .ok st' →
      ∀ it ∈ st'.1, it ∈ st.1 ∨ (since ≤ it.dt ∧ it.dt ≤ now) := by
  induction rows with
  | nil =>
    intro st st' h it hit
    simp only [rowsFold] at h
    cases h
    exact Or.inl hit
  | cons r rs ih =>
    intro st st' h it hit
    simp only [rowsFold] at h
    split at h
    · exact Except.noConfusion h
    · rename_i st1 heq
      rcases ih st1 st' h it hit with hin | hb
      · exact processRow_mem w since now name st r st1 heq it hin
      · exact Or.inr hb

/-- The same, over the whole pagination loop. -/
theorem fetchPagesAux_mem (w : World) (code name : String) (since now : Int)
    (pages : List Nat) :
    ∀ acc items, fetchPagesAux w code name since now pages acc = .ok items →
      ∀ it ∈ items, it ∈ acc ∨ (since ≤ it.dt ∧ it.dt ≤ now) := by
  induction pages with
  | nil =>
    intro acc items h it hit
    simp only [fetchPagesAux] at h
    cases h
    exact Or.inl hit
  | cons p ps ih =>
    intro acc items h it hit
    simp only [fetchPagesAux] at h
    split at h
    · exact Except.noConfusion h
    · rename_i doc heq
      split at h
      · cases h
        exact Or.inl hit
      · split at h
        · exact Except.noConfusion h
        · rename_i items' stop heq2
          have hmem1 := rowsFold_mem w since now name (parse_list_rows doc)
            (acc, false) (items', stop) heq2
          split at h
          · cases h
            exact hmem1 it hit
          · rcases ih items' items h it hit with hin | hb
            · exact hmem1 it hin
            · exact Or.inr hb

/-- C1: every item collected by `fetch_recent_for_section` with
`since = now - 24h` has its resolved detail timestamp inside the CLOSED
window `[since, now]`; an item with a timestamp outside it is never
appended, whatever its listing row's coarse date said. -/
theorem C1_window_inclusive (w : World) (code name : String) (now : Int)
    (mp : Nat) (items : List Item)
    (h : fetch_recent_for_section w code name (now - 1440) now mp = .ok items) :
    ∀ it ∈ items, now - 1440 ≤ it.dt ∧ it.dt ≤ now := by
  intro it hit
  unfold fetch_recent_for_section at h
  rcases fetchPagesAux_mem w code name (now - 1440) now (List.range' 1 mp)
      [] items h it hit with h0 | hb
  · exact absurd h0 (List.not_mem_nil it)
  · exact hb

/-! Concrete worlds used by the witnesses. -/

/-- `now` for the witnesses: 2025-08-12 15:00 KST (the spec's own example). -/
def NOW0 : Int := daysFromCivil 2025 8 12 * 1440 + 15 * 60

def dd1 : DetailDoc :=
  ⟨"머리말 등록일 2025-08-12 11:00 본문", [("#viewCon", "요약 내용")], "전체 텍스트"⟩

/-- Boundary detail page: timestamp exactly `since` (2025-08-11 15:00). -/
def dd2 : DetailDoc :=
  ⟨"머리말 등록일 2025-08-11 15:00 본문", [], "본문 전체"⟩

def a1 : Anchor :=
  ⟨"기사1", "/USR/NEWS/m_71/dtl.jsp?id=1",
   some ["1", "기사1", "주택토지", "2025-08-12", "10"]⟩

def a2 : Anchor :=
  ⟨"기사2", "/USR/NEWS/m_71/dtl.jsp?id=2",
   some ["2", "기사2", "주택토지", "2025-08-11", "10"]⟩

def cw1 : World :=
  { fetchList := fun code p =>
      if code = "p_sec_2" ∧ p = 1 then .ok [a1, a2] else .ok []
    fetchDetail := fun link =>
      if link = urljoinB "/USR/NEWS/m_71/dtl.jsp?id=1" then .ok dd1
      else if link = urljoinB "/USR/NEWS/m_71/dtl.jsp?id=2" then .ok dd2
      else .error .transport
    sendMsg := fun _ => .ok () }

def item1W : Item :=
  ⟨daysFromCivil 2025 8 12 * 1440 + 11 * 60, "기사1",
   urljoinB "/USR/NEWS/m_71/dtl.jsp?id=1", "주택토지", "요약 내용"⟩

def item2W : Item :=
  ⟨daysFromCivil 2025 8 11 * 1440 + 15 * 60, "기사2",
   urljoinB "/USR/NEWS/m_71/dtl.jsp?id=2", "주택토지", "본문 전체"⟩

theorem C1_window_inclusive_witness :
    fetch_recent_for_section cw1 "p_sec_2" "주택토지" (NOW0 - 1440) NOW0 3
      = .ok [item1W, item2W] ∧
    (NOW0 - 1440 ≤ item2W.dt ∧ item2W.dt ≤ NOW0) := by
  have h : fetch_recent_for_section cw1 "p_sec_2" "주택토지" (NOW0 - 1440) NOW0 3
      = .ok [item1W, item2W] := by rfl
  exact ⟨h, C1_window_inclusive cw1 "p_sec_2" "주택토지" NOW0 3 [item1W, item2W]
    h item2W (by simp)⟩

/-! ## C2: pagination stop behaviour -/

theorem processRow_congr (w w' : World) (hd : w.fetchDetail = w'.fetchDetail)
    (since now : Int) (name : String) (st : List Item × Bool) (row : Row) :
    processRow w since now name st row = processRow w' since now name st row := by
  unfold processRow processRowDetail
  rw [hd]

theorem rowsFold_congr (w w' : World) (hd : w.fetchDetail = w'.fetchDetail)
    (since now : Int) (name : String) (rows : List Row) :
    ∀ st, rowsFold w since now name st rows
      = rowsFold w' since now name st rows := by
  induction rows with
  | nil => intro st; rfl
  | cons r rs ih =>
    intro st
    simp only [rowsFold]
    rw [processRow_congr w w' hd]
    cases processRow w' since now name st r with
    | error e => rfl
    | ok st1 => exact ih st1

theorem fetchPagesAux_congr (w w' : World) (code name : String)
    (since now : Int) (hd : w.fetchDetail = w'.fetchDetail) :
    ∀ (pages : List Nat) (acc : List Item),
      (∀ p ∈ pages, w.fetchList code p = w'.fetchList code p) →
      fetchPagesAux w code name since now pages acc
        = fetchPagesAux w' code name since now pages acc := by
  intro pages
  induction pages with
  | nil => intro acc _; rfl
  | cons p ps ih =>
    intro acc hl
    simp only [fetchPagesAux]
    rw [hl p (List.mem_cons_self p ps)]
    cases w'.fetchList code p with
    | error e => rfl
    | ok doc =>
      dsimp only
      rw [rowsFold_congr w w' hd since now name (parse_list_rows doc) (acc, false)]
      split
      · rfl
      · cases rowsFold w' since now name (acc, false) (parse_list_rows doc) with
        | error e => rfl
        | ok st1 =>
          obtain ⟨its, stop⟩ := st1
          dsimp only
          split
          · rfl
          · exact ih its (fun q hq => hl q (List.mem_cons_of_mem p hq))

/-- C2: when some row of a fetched page has a coarse date strictly earlier
than `now − 24h` (calendar granularity), (a) the page's other rows — before
AND after that row — are still all evaluated, and the signal changes
nothing but the stop flag (the items produced are exactly those of the
other rows); (b) no subsequent page is fetched for the category: the run's
result for `p :: ps` equals the drained page's items for EVERY remaining
page list `ps`; (c) with the fixed default of 3 pages, pages beyond 1..3
are never consulted (two worlds agreeing there agree on the result); and
(d) an empty page ends pagination immediately. -/
theorem C2_pagination (w : World) (code name : String) (now : Int)
    (p : Nat) (ps : List Nat) (doc : List Anchor)
    (pre post : List Row) (bad : Row) (items0 acc : List Item) (s' : Bool)
    (hfetch : w.fetchList code p = .ok doc)
    (hrows : parse_list_rows doc = pre ++ bad :: post)
    (hbad : rowIsOld now bad = true)
    (hfold : rowsFold w (now - 1440) now name (items0, false) (pre ++ post)
      = .ok (acc, s')) :
    rowsFold w (now - 1440) now name (items0, false) (pre ++ bad :: post)
      = .ok (acc, true)
    ∧ fetchPagesAux w code name (now - 1440) now (p :: ps) items0 = .ok acc
    ∧ (∀ w' : World,
        (∀ q ∈ List.range' 1 3, w'.fetchList code q = w.fetchList code q) →
        w'.fetchDetail = w.fetchDetail →
        fetch_recent_for_section w' code name (now - 1440) now 3
          = fetch_recent_for_section w code name (now - 1440) now 3)
    ∧ (∀ (q : Nat) (qs : List Nat) (acc0 : List Item) (doc' : List Anchor),
        w.fetchList code q = .ok doc' → parse_list_rows doc' = [] →
        fetchPagesAux w code name (now - 1440) now (q :: qs) acc0
          = .ok acc0) := by
  have hsplit := rowsFold_append w (now - 1440) now name pre post (items0, false)
  rw [hsplit] at hfold
  have key : rowsFold w (now - 1440) now name (items0, false)
      (pre ++ bad :: post) = .ok (acc, true) := by
    cases hpre : rowsFold w (now - 1440) now name (items0, false) pre with
    | error e =>
      rw [hpre] at hfold
      exact Except.noConfusion hfold
    | ok st1 =>
      rw [hpre] at hfold
      dsimp only at hfold
      obtain ⟨its1, b1⟩ := st1
      rw [rowsFold_flag w (now - 1440) now name post its1 b1] at hfold
      cases hbase : rowsFold w (now - 1440) now name (its1, false) post with
      | error e =>
        rw [hbase] at hfold
        exact absurd hfold (by simp [Except.map])
      | ok q =>
        rw [hbase] at hfold
        simp only [Except.map, Except.ok.injEq, Prod.mk.injEq] at hfold
        rw [rowsFold_append w (now - 1440) now name pre (bad :: post)
          (items0, false), hpre]
        simp only [rowsFold, processRow_old w (now - 1440) now name
          (its1, b1) bad hbad]
        rw [rowsFold_flag w (now - 1440) now name post its1 true, hbase]
        simp [Except.map, hfold.1]
  refine ⟨key, ?_, ?_, ?_⟩
  · simp only [fetchPagesAux]
    rw [hfetch]
    try dsimp only
    rw [hrows]
    have hne : ¬ ((pre ++ bad :: post).isEmpty = true) := by
      cases pre <;> simp
    rw [if_neg hne, key]
    rfl
  · intro w' hl hd
    unfold fetch_recent_for_section
    exact fetchPagesAux_congr w' w code name (now - 1440) now hd
      (List.range' 1 3) [] hl
  · intro q qs acc0 doc' hq hrows'
    simp only [fetchPagesAux]
    rw [hq]
    try dsimp only
    rw [hrows']
    rfl

def a3 : Anchor :=
  ⟨"기사3", "/USR/NEWS/m_71/dtl.jsp?id=3",
   some ["3", "기사3", "국토도시", "2025-08-12", "10"]⟩

/-- A row one day older than the window start. -/
def a4 : Anchor :=
  ⟨"기사4", "/USR/NEWS/m_71/dtl.jsp?id=4",
   some ["4", "기사4", "국토도시", "2025-08-10", "10"]⟩

def a5 : Anchor :=
  ⟨"기사5", "/USR/NEWS/m_71/dtl.jsp?id=5",
   some ["5", "기사5", "국토도시", "2025-08-12", "10"]⟩

def doc2 : List Anchor := [a3, a4, a5]

def cw2 : World :=
  { fetchList := fun code p =>
      if code = "p_sec_9" ∧ p = 1 then .ok doc2 else .ok []
    fetchDetail := fun link =>
      if link = urljoinB "/USR/NEWS/m_71/dtl.jsp?id=3" then .ok dd1
      else if link = urljoinB "/USR/NEWS/m_71/dtl.jsp?id=5" then .ok dd2
      else .error .transport
    sendMsg := fun _ => .ok () }

def row3W : Row :=
  ⟨"기사3", urljoinB "/USR/NEWS/m_71/dtl.jsp?id=3", "국토도시", "2025-08-12"⟩

def row4W : Row :=
  ⟨"기사4", urljoinB "/USR/NEWS/m_71/dtl.jsp?id=4", "국토도시", "2025-08-10"⟩

def row5W : Row :=
  ⟨"기사5", urljoinB "/USR/NEWS/m_71/dtl.jsp?id=5", "국토도시", "2025-08-12"⟩

def item3W : Item :=
  ⟨daysFromCivil 2025 8 12 * 1440 + 11 * 60, "기사3",
   urljoinB "/USR/NEWS/m_71/dtl.jsp?id=3", "국토도시", "요약 내용"⟩

def item5W : Item :=
  ⟨daysFromCivil 2025 8 11 * 1440 + 15 * 60, "기사5",
   urljoinB "/USR/NEWS/m_71/dtl.jsp?id=5", "국토도시", "본문 전체"⟩

theorem C2_pagination_witness :
    rowsFold cw2 (NOW0 - 1440) NOW0 "국토도시" ([], false)
      [row3W, row4W, row5W] = .ok ([item3W, item5W], true) ∧
    fetchPagesAux cw2 "p_sec_9" "국토도시" (NOW0 - 1440) NOW0 [1, 2, 3] []
      = .ok [item3W, item5W] ∧
    fetchPagesAux cw2 "p_sec_9" "국토도시" (NOW0 - 1440) NOW0 [2, 3] []
      = .ok [] := by
  have h := C2_pagination cw2 "p_sec_9" "국토도시" NOW0 1 [2, 3] doc2
    [row3W] [row5W] row4W [] [item3W, item5W] false rfl rfl rfl rfl
  exact ⟨h.1, h.2.1, h.2.2.2 2 [3] [] [] rfl rfl⟩

/-! ## C10: rows with missing or unparseable coarse dates -/

/-- C10: a row whose coarse-date string is empty or unparseable
(`strptime` raises, caught to `row_date = None`) (1) never raises the
pagination stop signal, (2) is skipped silently if its detail fetch
raises, (3) is accepted — its detail page IS fetched — exactly when its
resolved detail timestamp lies in the closed window `[since, now]`,
and (4) is dropped when the resolved timestamp lies outside the window. -/
theorem C10_unparseable_date (w : World) (since now : Int) (name : String)
    (items : List Item) (s : Bool) (row : Row)
    (hd : parseDateYMD row.date_str = none) :
    (∀ res, processRow w since now name (items, s) row = .ok res → res.2 = s)
    ∧ (∀ e, w.fetchDetail row.link = .error e →
        processRow w since now name (items, s) row = .ok (items, s))
    ∧ (∀ doc dt, w.fetchDetail row.link = .ok doc →
        parse_detail_datetime_kst doc.raw = .ok (some dt) →
        since ≤ dt → dt ≤ now →
        processRow w since now name (items, s) row
          = .ok (items ++ [{ dt := dt, title := row.title, link := row.link,
                             category := name,
                             summary := extract_summary doc SUMMARY_CHARS }], s))
    ∧ (∀ doc dt, w.fetchDetail row.link = .ok doc →
        parse_detail_datetime_kst doc.raw = .ok (some dt) →
        ¬ (since ≤ dt ∧ dt ≤ now) →
        processRow w since now name (items, s) row = .ok (items, s)) := by
  have hold : rowIsOld now row = false := by
    unfold rowIsOld
    rw [hd]
  have hpr : processRow w since now name (items, s) row
      = processRowDetail w since now name (items, s) row := by
    unfold processRow
    rw [hold]
    simp
  refine ⟨?_, ?_, ?_, ?_⟩
  · intro res hres
    rw [hpr] at hres
    unfold processRowDetail at hres
    split at hres
    · cases hres; rfl
    · split at hres
      · exact Except.noConfusion hres
      · cases hres; rfl
      · split at hres
        · cases hres; rfl
        · cases hres; rfl
  · intro e he
    rw [hpr]
    unfold processRowDetail
    split
    · rfl
    · rename_i doc' heq
      rw [he] at heq <;> exact Except.noConfusion heq
  · intro doc dt hfd hp h1 h2
    rw [hpr]
    unfold processRowDetail
    split
    · rename_i e heq
      rw [hfd] at heq <;> exact Except.noConfusion heq
    · rename_i doc' heq
      rw [hfd] at heq
      injection heq with heq'
      subst heq'
      split
      · rename_i e heq2
        rw [hp] at heq2 <;> exact Except.noConfusion heq2
      · rename_i heq2
        rw [hp] at heq2 <;>
          (injection heq2 with h3
           exact Option.noConfusion h3)
      · rename_i dt' heq2
        rw [hp] at heq2
        injection heq2 with h3
        injection h3 with h4
        subst h4
        rw [if_pos ⟨h1, h2⟩]
  · intro doc dt hfd hp hw
    rw [hpr]
    unfold processRowDetail
    split
    · rename_i e heq
      rw [hfd] at heq <;> exact Except.noConfusion heq
    · rename_i doc' heq
      rw [hfd] at heq
      injection heq with heq'
      subst heq'
      split
      · rename_i e heq2
        rw [hp] at heq2 <;> exact Except.noConfusion heq2
      · rename_i heq2
        rw [hp] at heq2 <;>
          (injection heq2 with h3
           exact Option.noConfusion h3)
      · rename_i dt' heq2
        rw [hp] at heq2
        injection heq2 with h3
        injection h3 with h4
        subst h4
        rw [if_neg hw]

/-- A row with an empty coarse-date string. -/
def rowE : Row := ⟨"기사1", urljoinB "/USR/NEWS/m_71/dtl.jsp?id=1", "주택토지", ""⟩

theorem C10_unparseable_date_witness :
    processRow cw1 (NOW0 - 1440) NOW0 "주택토지" ([], false) rowE
      = .ok ([item1W], false) := by
  have h := C10_unparseable_date cw1 (NOW0 - 1440) NOW0 "주택토지" [] false rowE rfl
  exact h.2.2.1 dd1 item1W.dt rfl rfl (by decide) (by decide)

/-! ## C6: dedup excludes previously delivered links from the digest -/

theorem digestBody_mem (its : List Item) :
    ∀ (last : Option String) (s : String), s ∈ digestBody last its →
      ∃ it ∈ its, s = catHeader it.category ∨ s = renderItem it := by
  induction its with
  | nil => intro last s h; simp [digestBody] at h
  | cons it rest ih =>
    intro last s h
    simp only [digestBody] at h
    split at h
    · rcases List.mem_cons.1 h with rfl | h'
      · exact ⟨it, List.mem_cons_self it rest, Or.inr rfl⟩
      · obtain ⟨it', hm, ho⟩ := ih (some it.category) s h'
        exact ⟨it', List.mem_cons_of_mem it hm, ho⟩
    · rcases List.mem_cons.1 h with rfl | h'
      · exact ⟨it, List.mem_cons_self it rest, Or.inl rfl⟩
      · rcases List.mem_cons.1 h' with rfl | h''
        · exact ⟨it, List.mem_cons_self it rest, Or.inr rfl⟩
        · obtain ⟨it', hm, ho⟩ := ih (some it.category) s h''
          exact ⟨it', List.mem_cons_of_mem it hm, ho⟩

/-- Texts successfully delivered by the chunk-sending loop are exactly
joins of sent chunks. -/
theorem sendChunks_ok_mem (bt ci : Option String) (w : World) :
    ∀ (cs : List (List String)) (ts : List String),
      sendChunks bt ci w cs = .ok ts → ∀ t ∈ ts, ∃ c ∈ cs, t = joinNL c := by
  intro cs
  induction cs with
  | nil =>
    intro ts h t ht
    simp only [sendChunks] at h
    cases h
    simp at ht
  | cons c cs' ih =>
    intro ts h t ht
    simp only [sendChunks] at h
    split at h
    · exact Except.noConfusion h
    · split at h
      · exact Except.noConfusion h
      · rename_i rest heq
        cases h
        rcases List.mem_cons.1 ht with rfl | hmem
        · exact ⟨c, List.mem_cons_self c cs', rfl⟩
        · obtain ⟨c', hc', ht'⟩ := ih rest heq t hmem
          exact ⟨c', List.mem_cons_of_mem c hc', ht'⟩

/-- C6: (1) an item whose link is in the loaded dedup set is excluded from
`new_items`; (2) every line of every digest chunk is the header, the blank
separator, or a category header / rendered block of an item whose link is
NOT in the dedup set — an already-delivered item is rendered nowhere; and
(3) every successfully delivered text is the join of one of those chunks. -/
theorem C6_dedup_exclusion (now : Int) (sent : List String)
    (items : List Item) :
    (∀ it ∈ items, sent.contains it.link = true → it ∉ newItems sent items)
    ∧ (∀ c ∈ chunkLines (digestLines now (sortItems (newItems sent items))),
        ∀ l ∈ c,
          l = digestHeader now ∨ l = "" ∨
          ∃ it, it ∈ items ∧ sent.contains it.link = false ∧
            (l = catHeader it.category ∨ l = renderItem it))
    ∧ (∀ (bt ci : Option String) (w : World) (ts : List String),
        sendChunks bt ci w
          (chunkLines (digestLines now (sortItems (newItems sent items))))
          = .ok ts →
        ∀ t ∈ ts,
          ∃ c ∈ chunkLines (digestLines now (sortItems (newItems sent items))),
            t = joinNL c) := by
  refine ⟨?_, ?_, ?_⟩
  · intro it _ hc hmem
    have h2 := (List.mem_filter.1 hmem).2
    simp at h2
    exact h2 (by simpa using hc)
  · intro c hc l hl
    have hlin : l ∈ digestLines now (sortItems (newItems sent items)) := by
      have hj := chunkLines_flatten (digestLines now (sortItems (newItems sent items)))
      exact hj ▸ List.mem_flatten.2 ⟨c, hc, hl⟩
    simp only [digestLines] at hlin
    rcases List.mem_cons.1 hlin with h1 | hrest
    · exact Or.inl h1
    · rcases List.mem_cons.1 hrest with h2 | hbody
      · exact Or.inr (Or.inl h2)
      · obtain ⟨it, hit, hor⟩ := digestBody_mem _ none l hbody
        have hit' : it ∈ newItems sent items := by
          have hperm := List.perm_insertionSort
            (fun a b : Item => b.dt ≤ a.dt) (newItems sent items)
          exact hperm.mem_iff.1 hit
        have hfil := List.mem_filter.1 hit'
        refine Or.inr (Or.inr ⟨it, hfil.1, ?_, hor⟩)
        simpa using hfil.2
  · intro bt ci w ts hs t ht
    exact sendChunks_ok_mem bt ci w _ ts hs t ht

def sent0 : List String := [urljoinB "/USR/NEWS/m_71/dtl.jsp?id=1"]

theorem C6_dedup_exclusion_witness :
    item1W ∉ newItems sent0 [item1W, item2W] := by
  have h := C6_dedup_exclusion NOW0 sent0 [item1W, item2W]
  exact h.1 item1W (List.mem_cons_self item1W [item2W]) (by decide)

/-! ## C4 / C5: error propagation in `main` -/

/-- A world in which the first category's listing fetch raises a transport
error while the second category has a perfectly good fresh item. -/
def cw4 : World :=
  { fetchList := fun code p =>
      if code = "p_sec_2" then .error .transport
      else if code = "p_sec_9" ∧ p = 1 then .ok doc2
      else .ok []
    fetchDetail := fun link =>
      if link = urljoinB "/USR/NEWS/m_71/dtl.jsp?id=3" then .ok dd1
      else if link = urljoinB "/USR/NEWS/m_71/dtl.jsp?id=5" then .ok dd2
      else .error .transport
    sendMsg := fun _ => .ok () }

/-- C4 counterexample: a transport error on one category's listing fetch
does NOT leave the run alive — `main` aborts with that error even though
the next category (here 국토도시) had a deliverable in-window item, so
nothing at all is delivered. -/
theorem C4_listing_error_counterexample :
    run_main (some "tkn") (some "chat") cw4 .missing NOW0 = .error .transport
    ∧ fetch_recent_for_section cw4 "p_sec_9" "국토도시" (NOW0 - 1440) NOW0 3
        = .ok [item3W, item5W] := ⟨rfl, rfl⟩

/-- C4 amended: an uncaught listing-fetch exception in ANY of the three
categories propagates out of `fetch_recent_for_section` and aborts the
whole run with that error (remaining categories are not processed and no
message is sent); only detail-page failures are skipped per item. -/
theorem C4_listing_error_aborts (bt ci : Option String) (w : World)
    (cache : CacheRead) (now : Int) :
    (∀ e, fetch_recent_for_section w "p_sec_2" "주택토지" (now - 1440) now 3
        = .error e → run_main bt ci w cache now = .error e)
    ∧ (∀ i1 e,
        fetch_recent_for_section w "p_sec_2" "주택토지" (now - 1440) now 3
          = .ok i1 →
        fetch_recent_for_section w "p_sec_9" "국토도시" (now - 1440) now 3
          = .error e →
        run_main bt ci w cache now = .error e)
    ∧ (∀ i1 i2 e,
        fetch_recent_for_section w "p_sec_2" "주택토지" (now - 1440) now 3
          = .ok i1 →
        fetch_recent_for_section w "p_sec_9" "국토도시" (now - 1440) now 3
          = .ok i2 →
        fetch_recent_for_section w "p_sec_1" "일반" (now - 1440) now 3
          = .error e →
        run_main bt ci w cache now = .error e) := by
  refine ⟨?_, ?_, ?_⟩
  · intro e h1
    simp only [run_main, h1]
  · intro i1 e h1 h2
    simp only [run_main, h1, h2]
  · intro i1 i2 e h1 h2 h3
    simp only [run_main, h1, h2, h3]

theorem C4_listing_error_aborts_witness :
    run_main (some "tkn") (some "chat") cw4 .missing NOW0
      = .error .transport := by
  have h := C4_listing_error_aborts (some "tkn") (some "chat") cw4 .missing NOW0
  exact h.1 .transport rfl

theorem sendChunks_config (bt ci : Option String) (w : World)
    (hsend : ∀ t, send bt ci w t = .error .config) :
    ∀ cs : List (List String), cs ≠ [] →
      sendChunks bt ci w cs = .error .config := by
  intro cs hne
  cases cs with
  | nil => exact absurd rfl hne
  | cons c cs' =>
    simp only [sendChunks, hsend]

/-- C5 counterexample: with `BOT_TOKEN` missing, the run does NOT fail
with the configuration error before any network activity — the listing
fetch runs first, and its transport error is what surfaces, so network
activity precedes the credential check. -/
theorem C5_missing_creds_counterexample :
    run_main none (some "chat") cw4 .missing NOW0 = .error .transport
    ∧ PyErr.transport ≠ PyErr.config := ⟨rfl, by decide⟩

/-- C5 amended: when either credential is missing (unset or empty), the
run never completes successfully — the `RuntimeError` is raised by `send`,
which runs only AFTER all listing/detail fetching: a fetch error surfaces
instead of the configuration error, and when fetching succeeds the first
send attempt raises the configuration error. -/
theorem C5_missing_creds (bt ci : Option String) (w : World)
    (cache : CacheRead) (now : Int)
    (h : credOk bt = false ∨ credOk ci = false) :
    (∀ r, run_main bt ci w cache now ≠ .ok r)
    ∧ (∀ e, w.fetchList "p_sec_2" 1 = .error e →
        run_main bt ci w cache now = .error e) := by
  have hsend : ∀ t, send bt ci w t = .error .config := by
    intro t
    unfold send
    rcases h with h | h <;> simp [h]
  constructor
  · intro r hr
    simp only [run_main] at hr
    split at hr
    · exact Except.noConfusion hr
    · rename_i i1 h1
      split at hr
      · exact Except.noConfusion hr
      · rename_i i2 h2
        split at hr
        · exact Except.noConfusion hr
        · rename_i i3 h3
          split at hr
          · split at hr
            · exact Except.noConfusion hr
            · rename_i u heq
              rw [hsend] at heq <;> exact Except.noConfusion heq
          · split at hr
            · exact Except.noConfusion hr
            · rename_i ts heq
              have hcne : chunkLines (digestLines now (sortItems
                  (newItems (load_cache cache) (i1 ++ i2 ++ i3)))) ≠ [] :=
                chunkLines_ne_nil _ (by simp [digestLines])
              rw [sendChunks_config bt ci w hsend _ hcne] at heq <;>
                exact Except.noConfusion heq
  · intro e he
    have h1 : fetch_recent_for_section w "p_sec_2" "주택토지"
        (now - 1440) now 3 = .error e := by
      unfold fetch_recent_for_section
      have hr3 : List.range' 1 3 = [1, 2, 3] := rfl
      rw [hr3]
      simp only [fetchPagesAux, he]
    simp only [run_main, h1]

theorem C5_missing_creds_witness :
    run_main none (some "chat") cw4 .missing NOW0 ≠ .ok ([], none)
    ∧ run_main none (some "chat") cw4 .missing NOW0 = .error .transport := by
  have h := C5_missing_creds none (some "chat") cw4 .missing NOW0 (Or.inl rfl)
  exact ⟨h.1 ([], none), h.2 .transport rfl⟩

theorem C9_parse_list_rows_witness :
    (parse_list_rows [c9a]).length = (goodAnchors [c9a]).length ∧
    (mkRow c9a ["1", "제목", "주택토지", "2025-08-12", "5"]).category = "주택토지" ∧
    (mkRow c9a ["1", "제목", "주택토지", "2025-08-12", "5"]).date_str = "2025-08-12" := by
  have h := C9_parse_list_rows [c9a]
  refine ⟨h.length_eq, ?_⟩
  have hrows : parse_list_rows [c9a]
      = [mkRow c9a ["1", "제목", "주택토지", "2025-08-12", "5"]] := by decide
  have hgood : goodAnchors [c9a]
      = [(c9a, ["1", "제목", "주택토지", "2025-08-12", "5"])] := by decide
  rw [hrows, hgood] at h
  cases h with
  | cons hR _ =>
    exact hR.2.2.1 ["1", "제목"] "주택토지" "2025-08-12" "5" rfl (by decide)

end MolitBot
